import Mathlib

/-!
Verification of the e-paper display driver design (Canvas + Controller) of
the epd-waveshare repository.  The repository ships `examples/epd7in5_v2.rs`,
a caller of the library; the library modules themselves (the rotation-aware
framebuffer, the color palette and the device state machine) are not among
the sources, so the definitions below are modelled from the specification,
as their doc comments state, and checked against it and against the
example's usage.
-/

set_option maxHeartbeats 1000000

/-- Modelled from the spec: the four display rotations of §3 (the library's
`graphics::DisplayRotation`, used by the example via `set_rotation`). -/
inductive DisplayRotation where
  | Rotate0
  | Rotate90
  | Rotate180
  | Rotate270
  deriving DecidableEq, Repr

/-- Modelled from the spec: the small enumerated ink palette of §1/§3 (the
library's `color::Color`, used by the example as `Color::Black` and
`Color::White`). -/
inductive Color where
  | Black
  | White
  deriving DecidableEq, Repr

/-- Modelled from the spec: the 1-bit packed value of a color (§4.1).  The
polarity convention is the one the example documents in its comment at
`epd7in5_v2.rs:107`: `Black` packs as bit 0 and is rendered as white
background, `White` packs as bit 1 and is rendered as black ink. -/
def Color.get_bit_value : Color → Nat
  | .Black => 0
  | .White => 1

/-- Modelled from the spec: a whole byte of eight identical packed pixels of
one color, used by the clear-to-color operation (§4.1 packing). -/
def Color.get_byte_value : Color → Nat
  | .Black => 0x00
  | .White => 0xff

/-- Modelled from the spec: the visible shade the panel renders for a packed
bit value, per the example's comment at `epd7in5_v2.rs:107` (color is
inverted: black means white, white means black). -/
inductive VisibleShade where
  | vWhite
  | vBlack
  deriving DecidableEq, Repr

/-- Modelled from the spec: panel rendering of one packed bit.  Bit 0 (the
packing of `Color.Black`) shows as white background; bit 1 (the packing of
`Color.White`) shows as black ink. -/
def panelShade (bit : Nat) : VisibleShade :=
  if bit = 0 then .vWhite else .vBlack

/-- Modelled from the spec: the §4.1 rotation mapping from logical to
physical coordinates, on natural-number coordinates as the buffer code uses
them (the bounds guard of `draw_pixel` keeps every subtraction in range). -/
def find_rotation (x y width height : Nat) : DisplayRotation → Nat × Nat
  | .Rotate0 => (x, y)
  | .Rotate90 => (width - 1 - y, x)
  | .Rotate180 => (width - 1 - x, height - 1 - y)
  | .Rotate270 => (y, height - 1 - x)

/-- Modelled from the spec: the §4.1 rotation mapping as the pure integer
formulas the spec writes, used to state the algebraic group laws of §8. -/
def find_rotationZ (x y width height : Int) : DisplayRotation → Int × Int
  | .Rotate0 => (x, y)
  | .Rotate90 => (width - 1 - y, x)
  | .Rotate180 => (width - 1 - x, height - 1 - y)
  | .Rotate270 => (y, height - 1 - x)

/-- Modelled from the spec: logical width after rotation; swaps with the
physical height when the rotation is 90° or 270° (§4.2 contract of
`draw_pixel`). -/
def logicalWidth (width height : Nat) : DisplayRotation → Nat
  | .Rotate0 => width
  | .Rotate90 => height
  | .Rotate180 => width
  | .Rotate270 => height

/-- Modelled from the spec: logical height after rotation; swaps with the
physical width when the rotation is 90° or 270°. -/
def logicalHeight (width height : Nat) : DisplayRotation → Nat
  | .Rotate0 => height
  | .Rotate90 => width
  | .Rotate180 => height
  | .Rotate270 => width

/-- Modelled from the spec: buffer length in bytes for 1 bit per pixel,
`ceil(width*height/8)` (§3). -/
def bufferLen (width height : Nat) : Nat :=
  (width * height + 7) / 8

/-- Modelled from the spec: the Canvas of §3 — physical dimensions, current
rotation, and the packed byte buffer in row-major unrotated physical
layout (the example's `Display7in5`). -/
structure Display where
  width : Nat
  height : Nat
  rotation : DisplayRotation
  buffer : List Nat

/-- Modelled from the spec: Canvas construction — panel dimensions, rotation
0°, and an initial all-background fill (§3 lifecycle). -/
def Display.new (width height : Nat) (background : Color) : Display :=
  ⟨width, height, .Rotate0, List.replicate (bufferLen width height) background.get_byte_value⟩

/-- Modelled from the spec: `set_rotation(r)` is a pure state change with no
reallocation (§4.1), used by the example at `epd7in5_v2.rs:70`–`79`. -/
def Display.set_rotation (d : Display) (r : DisplayRotation) : Display :=
  { d with rotation := r }

/-- Modelled from the spec: write of a single packed bit inside one byte;
byte value `v`, bit position `bit`, new bit value `bv` (1 sets, otherwise
clears within the 8-bit byte). -/
def setBitVal (v bit bv : Nat) : Nat :=
  if bv = 1 then v ||| 2 ^ bit else v &&& (255 ^^^ 2 ^ bit)

/-- Modelled from the spec: `draw_pixel(x, y, color)` of §4.1 — bounds check
against the post-rotation logical dimensions (out-of-range is a silent
no-op), rotation mapping to the physical coordinate, then the §4.1 bit
packing: byte index `(py*width+px)/8`, bit offset `7 - ((py*width+px) % 8)`. -/
def Display.draw_pixel (d : Display) (x y : Nat) (c : Color) : Display :=
  if x < logicalWidth d.width d.height d.rotation ∧
      y < logicalHeight d.width d.height d.rotation then
    let p := find_rotation x y d.width d.height d.rotation
    let idx := p.2 * d.width + p.1
    let newByte := setBitVal (d.buffer.getD (idx / 8) 0) (7 - idx % 8) c.get_bit_value
    { d with buffer := d.buffer.set (idx / 8) newByte }
  else d

/-- Modelled from the spec: `clear(color)` fills every pixel with `color`,
byte by byte, in O(buffer length), preserving the buffer length (§4.1),
used by the example at `epd7in5_v2.rs:87`. -/
def Display.clear (d : Display) (c : Color) : Display :=
  { d with buffer := d.buffer.map fun _ => c.get_byte_value }

/-- Reading one packed bit of the buffer as a 0/1 value: byte index `i`,
bit position `b` within the byte. -/
def Display.pixelBitAt (d : Display) (i b : Nat) : Nat :=
  if (d.buffer.getD i 0).testBit b then 1 else 0

/-- A concrete 128 × 296 panel at rotation 0° with an all-zero buffer, used
to instantiate the spec scenarios on the dimensions they name. -/
def sampleDisplay : Display :=
  ⟨128, 296, .Rotate0, List.replicate 4736 0⟩

/-- Modelled from the spec: the Controller lifecycle states of §3. -/
inductive CtrlState where
  | Uninitialized
  | Active
  | Sleeping
  deriving DecidableEq, Repr

/-- Modelled from the spec: the error taxonomy of §7 — four distinct named
errors. -/
inductive EpdError where
  | TransportError
  | GpioError
  | TimeoutError
  | StateError
  deriving DecidableEq, Repr

/-- Modelled from the spec: one observable bus or pin interaction of the
Controller (§4.2, §6), recorded as a trace so that properties such as
«zero bus I/O before failing» are statable. -/
inductive BusEvent where
  | command (c : Nat)
  | data (bytes : List Nat)
  | pinWrite (pin : Nat) (level : Bool)
  | delayMs (ms : Nat)
  deriving DecidableEq, Repr

/-- Reset pin of the example wiring (`epd7in5_v2.rs:23`). -/
def EPD_RST_PIN : Nat := 17

/-- Modelled from the spec: the Controller of §3 — its lifecycle state (the
bus handle is passed to each operation as the busy-line oracle). -/
structure Controller where
  state : CtrlState
  deriving DecidableEq, Repr

/-- Modelled from the spec: the bounded busy-wait of §4.2 — poll the busy
line at successive instants starting at `i`, at most `fuel` times; exceeding
the bound is a hard `TimeoutError`, not a silent continue. -/
def wait_until_idle (busy : Nat → Bool) : Nat → Nat → Except EpdError Unit
  | 0, _ => .error .TimeoutError
  | fuel + 1, i => if busy i then wait_until_idle busy fuel (i + 1) else .ok ()

/-- Busy line asserted at every poll instant below `n` (the line never
clears within an `n`-poll timeout bound). -/
def busyThrough (busy : Nat → Bool) : Nat → Bool
  | 0 => true
  | n + 1 => busy n && busyThrough busy n

/-- Modelled from the spec: `initialize()` of §4.2 — reset pulse with two
delays, bounded busy-wait, then the fixed panel-specific command sequence
and the transition to `Active`; on a busy-wait timeout the call fails with
`TimeoutError` and the lifecycle state is left unchanged.  The example
reaches it through `Epd7in5::new` at `epd7in5_v2.rs:61`. -/
def Controller.init_hw (ctl : Controller) (busy : Nat → Bool) (timeout : Nat) :
    Except EpdError Unit × Controller × List BusEvent :=
  let resetEvents : List BusEvent :=
    [.pinWrite EPD_RST_PIN false, .delayMs 10, .pinWrite EPD_RST_PIN true, .delayMs 10]
  match wait_until_idle busy timeout 0 with
  | .error e => (.error e, ctl, resetEvents)
  | .ok _ =>
    (.ok (), { state := .Active },
      resetEvents ++ [.command 0x01, .data [0x07, 0x07, 0x3f, 0x3f], .command 0x04])

/-- Modelled from the spec: `update_and_display_frame(buffer)` of §4.2 —
requires `Active`, otherwise it fails fast with `StateError` and performs
no bus I/O at all; in `Active` it sends the frame framed by a write-RAM
command, issues the refresh command, and busy-waits with a bounded timeout.
Used by the example at `epd7in5_v2.rs:82`. -/
def Controller.update_and_display_frame (ctl : Controller) (buf : List Nat)
    (busy : Nat → Bool) (timeout : Nat) :
    Except EpdError Unit × Controller × List BusEvent :=
  match ctl.state with
  | .Active =>
    let events : List BusEvent := [.command 0x13, .data buf, .command 0x12]
    match wait_until_idle busy timeout 0 with
    | .error e => (.error e, ctl, events)
    | .ok _ => (.ok (), ctl, events)
  | _ => (.error .StateError, ctl, [])

/-- Modelled from the spec: `sleep()` of §4.2 — requires `Active`, sends the
deep-sleep command and transitions to the terminal `Sleeping` state.  Used
by the example at `epd7in5_v2.rs:166`. -/
def Controller.sleep (ctl : Controller) :
    Except EpdError Unit × Controller × List BusEvent :=
  match ctl.state with
  | .Active => (.ok (), { state := .Sleeping }, [.command 0x07, .data [0xa5]])
  | _ => (.error .StateError, ctl, [])

/-- Integer rotation mapping in point form, for composing rotations. -/
def rotZ (width height : Int) (r : DisplayRotation) (p : Int × Int) : Int × Int :=
  find_rotationZ p.1 p.2 width height r

/-!
Helper lemmas about single-bit writes inside a byte.
-/

theorem testBit_255 (k : Nat) : (255 : Nat).testBit k = decide (k < 8) := by
  rw [show (255 : Nat) = 2 ^ 8 - 1 from by norm_num, Nat.testBit_two_pow_sub_one]

theorem setBitVal_testBit_self (v b : Nat) (hb : b < 8) (c : Color) :
    (if (setBitVal v b c.get_bit_value).testBit b then 1 else 0) = c.get_bit_value := by
  cases c <;>
    simp [setBitVal, Color.get_bit_value, Nat.testBit_or, Nat.testBit_and,
      Nat.testBit_xor, testBit_255, Nat.testBit_two_pow_self, hb]

theorem setBitVal_testBit_other (v b k bv : Nat) (hk : k < 8) (hne : k ≠ b) :
    (setBitVal v b bv).testBit k = v.testBit k := by
  unfold setBitVal
  split <;>
    simp [Nat.testBit_or, Nat.testBit_and, Nat.testBit_xor, testBit_255,
      hk, Nat.testBit_two_pow, Ne.symm hne]

/-- C1: for every rotation in {0°, 90°, 180°, 270°} and every in-range
logical coordinate, the coordinate mapping returns exactly the spec's
formulas; in particular with width 128, height 296 and rotation 90°,
logical (0,0) maps to physical (127,0). -/
theorem rotation_mapping_matches_spec (w h : Nat) :
    (∀ x y, x < w → y < h → find_rotation x y w h .Rotate0 = (x, y)) ∧
    (∀ x y, x < h → y < w → find_rotation x y w h .Rotate90 = (w - 1 - y, x)) ∧
    (∀ x y, x < w → y < h → find_rotation x y w h .Rotate180 = (w - 1 - x, h - 1 - y)) ∧
    (∀ x y, x < h → y < w → find_rotation x y w h .Rotate270 = (y, h - 1 - x)) ∧
    find_rotation 0 0 128 296 .Rotate90 = (127, 0) :=
  ⟨fun _ _ _ _ => rfl, fun _ _ _ _ => rfl, fun _ _ _ _ => rfl, fun _ _ _ _ => rfl,
    by decide⟩

theorem rotation_mapping_matches_spec_witness :
    (5 < 128 ∧ 7 < 296) ∧
      find_rotation 5 7 128 296 .Rotate180 = (122, 288) ∧
      find_rotation 0 0 128 296 .Rotate90 = (127, 0) :=
  ⟨by decide,
    (rotation_mapping_matches_spec 128 296).2.2.1 5 7 (by decide) (by decide),
    (rotation_mapping_matches_spec 128 296).2.2.2.2⟩

/-- C2: on the integer rotation formulas, applying the 90° mapping four
consecutive times to an in-range coordinate returns the original
coordinate, and each rotation mapping composed with its inverse mapping
(taken on the swapped logical dimensions) is the identity. -/
theorem rotate90_four_times_identity (w h x y : Int)
    (hx0 : 0 ≤ x) (hxw : x < w) (hy0 : 0 ≤ y) (hyh : y < h) :
    rotZ w h .Rotate90 (rotZ w h .Rotate90 (rotZ w h .Rotate90 (rotZ w h .Rotate90 (x, y))))
        = (x, y) ∧
    rotZ h w .Rotate270 (rotZ w h .Rotate90 (x, y)) = (x, y) ∧
    rotZ h w .Rotate90 (rotZ w h .Rotate270 (x, y)) = (x, y) ∧
    rotZ w h .Rotate180 (rotZ w h .Rotate180 (x, y)) = (x, y) ∧
    rotZ w h .Rotate0 (rotZ w h .Rotate0 (x, y)) = (x, y) := by
  simp [rotZ, find_rotationZ, Prod.ext_iff]

theorem rotate90_four_times_identity_witness :
    ((0 : Int) ≤ 3 ∧ (3 : Int) < 128 ∧ (0 : Int) ≤ 5 ∧ (5 : Int) < 296) ∧
      rotZ 128 296 .Rotate90
        (rotZ 128 296 .Rotate90
          (rotZ 128 296 .Rotate90 (rotZ 128 296 .Rotate90 (3, 5)))) = (3, 5) :=
  ⟨by norm_num,
    (rotate90_four_times_identity 128 296 3 5 (by norm_num) (by norm_num)
      (by norm_num) (by norm_num)).1⟩

/-- Replacing one byte of the packed buffer (the elementary state change a
pixel write performs). -/
def Display.writeByte (d : Display) (i v : Nat) : Display :=
  { d with buffer := d.buffer.set i v }

theorem sampleDisplay_wf :
    sampleDisplay.buffer.length = bufferLen sampleDisplay.width sampleDisplay.height := by
  show (List.replicate 4736 0).length = bufferLen 128 296
  rw [List.length_replicate]
  norm_num [bufferLen]

theorem row_major_lt (x y w h : Nat) (hx : x < w) (hy : y < h) :
    y * w + x < w * h := by
  have h1 : y * w + x < (y + 1) * w := by
    rw [Nat.succ_mul]
    exact Nat.add_lt_add_left hx _
  have h2 : (y + 1) * w ≤ h * w := Nat.mul_le_mul_right w hy
  exact Nat.lt_of_lt_of_le h1 (h2.trans_eq (Nat.mul_comm h w))

theorem div8_lt_ceil (n N : Nat) (h : n < N) : n / 8 < (N + 7) / 8 := by omega

/-- With rotation 0° and in-range coordinates, `draw_pixel` rewrites exactly
the byte at index `(y*width+x)/8`, bit `7 - (y*width+x) % 8`. -/
theorem draw_pixel_rotate0_eq (d : Display) (x y : Nat) (c : Color)
    (hrot : d.rotation = .Rotate0) (hx : x < d.width) (hy : y < d.height) :
    d.draw_pixel x y c =
      d.writeByte ((y * d.width + x) / 8)
        (setBitVal (d.buffer.getD ((y * d.width + x) / 8) 0)
          (7 - (y * d.width + x) % 8) c.get_bit_value) := by
  unfold Display.draw_pixel Display.writeByte
  rw [hrot]
  simp [logicalWidth, logicalHeight, find_rotation, hx, hy]

/-- C3: with rotation 0° and 1-bit color, a pixel write at in-range (x,y)
resolves to byte index `(y*width+x)/8`, bit offset `7 - ((y*width+x) % 8)`:
that bit afterwards holds the packed value of the color, and every other
bit of the buffer is unchanged (so `draw_pixel(0,0,c)` on a 128×296 panel
sets byte 0, bit 7). -/
theorem draw_pixel_rotate0_bit (d : Display) (x y : Nat) (c : Color)
    (hrot : d.rotation = .Rotate0) (hx : x < d.width) (hy : y < d.height)
    (hwf : d.buffer.length = bufferLen d.width d.height) :
    (d.draw_pixel x y c).pixelBitAt ((y * d.width + x) / 8) (7 - (y * d.width + x) % 8)
        = c.get_bit_value ∧
    ∀ i b, b < 8 → ¬(i = (y * d.width + x) / 8 ∧ b = 7 - (y * d.width + x) % 8) →
      (d.draw_pixel x y c).pixelBitAt i b = d.pixelBitAt i b := by
  have hlen : (y * d.width + x) / 8 < d.buffer.length := by
    rw [hwf]
    exact div8_lt_ceil _ _ (row_major_lt x y _ _ hx hy)
  rw [draw_pixel_rotate0_eq d x y c hrot hx hy]
  constructor
  · simp only [Display.pixelBitAt, Display.writeByte, List.getD_eq_getElem?_getD,
      List.getElem?_set_self hlen, Option.getD_some]
    exact setBitVal_testBit_self _ (7 - (y * d.width + x) % 8) (by omega) c
  · intro i b hb hne
    by_cases hi : i = (y * d.width + x) / 8
    · subst hi
      have hbne : b ≠ 7 - (y * d.width + x) % 8 := fun hb2 => hne ⟨rfl, hb2⟩
      simp only [Display.pixelBitAt, Display.writeByte, List.getD_eq_getElem?_getD,
        List.getElem?_set_self hlen, Option.getD_some]
      rw [setBitVal_testBit_other _ _ _ _ hb hbne]
    · simp only [Display.pixelBitAt, Display.writeByte, List.getD_eq_getElem?_getD,
        List.getElem?_set_ne (fun hij => hi hij.symm)]

theorem draw_pixel_rotate0_bit_witness :
    (sampleDisplay.rotation = .Rotate0 ∧ 0 < sampleDisplay.width ∧
      0 < sampleDisplay.height ∧
      sampleDisplay.buffer.length = bufferLen sampleDisplay.width sampleDisplay.height) ∧
    ((sampleDisplay.draw_pixel 0 0 .White).pixelBitAt ((0 * sampleDisplay.width + 0) / 8)
        (7 - (0 * sampleDisplay.width + 0) % 8) = Color.White.get_bit_value ∧
      ∀ i b, b < 8 →
        ¬(i = (0 * sampleDisplay.width + 0) / 8 ∧ b = 7 - (0 * sampleDisplay.width + 0) % 8) →
        (sampleDisplay.draw_pixel 0 0 .White).pixelBitAt i b = sampleDisplay.pixelBitAt i b) :=
  ⟨⟨rfl, by decide, by decide, sampleDisplay_wf⟩,
    draw_pixel_rotate0_bit sampleDisplay 0 0 .White rfl (by decide) (by decide)
      sampleDisplay_wf⟩

/-- C4: a `draw_pixel` call outside the post-rotation logical bounds never
fails and leaves the Canvas, its buffer included, exactly unchanged. -/
theorem draw_pixel_out_of_range_noop (d : Display) (x y : Nat) (c : Color)
    (h : logicalWidth d.width d.height d.rotation ≤ x ∨
      logicalHeight d.width d.height d.rotation ≤ y) :
    d.draw_pixel x y c = d := by
  unfold Display.draw_pixel
  have hng : ¬(x < logicalWidth d.width d.height d.rotation ∧
      y < logicalHeight d.width d.height d.rotation) := by
    rcases h with h | h
    · exact fun hc => Nat.not_lt.mpr h hc.1
    · exact fun hc => Nat.not_lt.mpr h hc.2
  rw [if_neg hng]

theorem draw_pixel_out_of_range_noop_witness :
    logicalWidth sampleDisplay.width sampleDisplay.height sampleDisplay.rotation ≤ 500 ∧
      sampleDisplay.draw_pixel 500 3 .White = sampleDisplay :=
  ⟨by decide,
    draw_pixel_out_of_range_noop sampleDisplay 500 3 .White (Or.inl (by decide))⟩

theorem clear_pixel_bit (d : Display) (c : Color) (p : Nat)
    (hwf : d.buffer.length = bufferLen d.width d.height)
    (hp : p < d.width * d.height) :
    (d.clear c).pixelBitAt (p / 8) (7 - p % 8) = c.get_bit_value := by
  have hlen : p / 8 < d.buffer.length := by
    rw [hwf]
    exact div8_lt_ceil _ _ hp
  have hb8 : 7 - p % 8 < 8 := by omega
  simp only [Display.clear, Display.pixelBitAt, List.getD_eq_getElem?_getD,
    List.getElem?_map, List.getElem?_eq_getElem hlen, Option.map_some]
  cases c
  · simp [Color.get_byte_value, Color.get_bit_value]
  · simp [Color.get_byte_value, Color.get_bit_value, testBit_255, hb8]

/-- C5: `clear(color)` never fails (it is a total state update preserving
the buffer length), and afterwards every pixel of the panel reads back the
packed bit encoding of the color. -/
theorem clear_sets_every_pixel (d : Display) (c : Color)
    (hwf : d.buffer.length = bufferLen d.width d.height) :
    (d.clear c).buffer.length = d.buffer.length ∧
    ∀ p, p < d.width * d.height →
      (d.clear c).pixelBitAt (p / 8) (7 - p % 8) = c.get_bit_value := by
  exact ⟨by simp [Display.clear], fun p hp => clear_pixel_bit d c p hwf hp⟩

theorem clear_sets_every_pixel_witness :
    (sampleDisplay.buffer.length = bufferLen sampleDisplay.width sampleDisplay.height ∧
      10 < sampleDisplay.width * sampleDisplay.height) ∧
    (sampleDisplay.clear .Black).pixelBitAt (10 / 8) (7 - 10 % 8)
        = Color.Black.get_bit_value :=
  ⟨⟨sampleDisplay_wf, by decide⟩,
    (clear_sets_every_pixel sampleDisplay .Black sampleDisplay_wf).2 10 (by decide)⟩

/-- The physical pixel index a logical coordinate resolves to under the
current rotation (row-major over the unrotated physical axes). -/
def pixIdx (d : Display) (x y : Nat) : Nat :=
  let p := find_rotation x y d.width d.height d.rotation
  p.2 * d.width + p.1

/-- In-range `draw_pixel` in equation form, for any rotation. -/
theorem draw_pixel_in_range_eq (d : Display) (x y : Nat) (c : Color)
    (hx : x < logicalWidth d.width d.height d.rotation)
    (hy : y < logicalHeight d.width d.height d.rotation) :
    d.draw_pixel x y c =
      d.writeByte (pixIdx d x y / 8)
        (setBitVal (d.buffer.getD (pixIdx d x y / 8) 0)
          (7 - pixIdx d x y % 8) c.get_bit_value) := by
  unfold Display.draw_pixel Display.writeByte pixIdx
  rw [if_pos ⟨hx, hy⟩]

theorem writeByte_eq_self (d : Display) (i v : Nat)
    (h : d.buffer.set i v = d.buffer) : d.writeByte i v = d := by
  unfold Display.writeByte
  rw [h]

theorem setBitVal_idem (v b bv : Nat) :
    setBitVal (setBitVal v b bv) b bv = setBitVal v b bv := by
  unfold setBitVal
  split
  · apply Nat.eq_of_testBit_eq
    intro k
    simp [Nat.testBit_or, Bool.or_assoc]
  · apply Nat.eq_of_testBit_eq
    intro k
    simp [Nat.testBit_and, Bool.and_assoc]

/-- C6: drawing the same in-range pixel twice with the same color leaves
the Canvas in exactly the state one write produces. -/
theorem draw_pixel_idempotent (d : Display) (x y : Nat) (c : Color)
    (hx : x < logicalWidth d.width d.height d.rotation)
    (hy : y < logicalHeight d.width d.height d.rotation) :
    (d.draw_pixel x y c).draw_pixel x y c = d.draw_pixel x y c := by
  have h1 := draw_pixel_in_range_eq d x y c hx hy
  have hw : (d.draw_pixel x y c).width = d.width := by rw [h1]; rfl
  have hh : (d.draw_pixel x y c).height = d.height := by rw [h1]; rfl
  have hr : (d.draw_pixel x y c).rotation = d.rotation := by rw [h1]; rfl
  have hbuf : (d.draw_pixel x y c).buffer =
      d.buffer.set (pixIdx d x y / 8)
        (setBitVal (d.buffer.getD (pixIdx d x y / 8) 0)
          (7 - pixIdx d x y % 8) c.get_bit_value) := by
    rw [h1]
    rfl
  have hx2 : x < logicalWidth (d.draw_pixel x y c).width (d.draw_pixel x y c).height
      (d.draw_pixel x y c).rotation := by
    rw [hw, hh, hr]; exact hx
  have hy2 : y < logicalHeight (d.draw_pixel x y c).width (d.draw_pixel x y c).height
      (d.draw_pixel x y c).rotation := by
    rw [hw, hh, hr]; exact hy
  have hpix : pixIdx (d.draw_pixel x y c) x y = pixIdx d x y := by
    unfold pixIdx
    rw [hw, hh, hr]
  rw [draw_pixel_in_range_eq (d.draw_pixel x y c) x y c hx2 hy2, hpix]
  by_cases hI : pixIdx d x y / 8 < d.buffer.length
  · have hv : (d.draw_pixel x y c).buffer.getD (pixIdx d x y / 8) 0 =
        setBitVal (d.buffer.getD (pixIdx d x y / 8) 0)
          (7 - pixIdx d x y % 8) c.get_bit_value := by
      rw [hbuf]
      simp [List.getD_eq_getElem?_getD, List.getElem?_set_self hI]
    rw [hv, setBitVal_idem]
    apply writeByte_eq_self
    rw [hbuf, List.set_set]
  · have hbe : (d.draw_pixel x y c).buffer = d.buffer := by
      rw [hbuf, List.set_eq_of_length_le (Nat.le_of_not_lt hI)]
    apply writeByte_eq_self
    rw [hbe, List.set_eq_of_length_le (Nat.le_of_not_lt hI)]

theorem draw_pixel_idempotent_witness :
    (2 < logicalWidth sampleDisplay.width sampleDisplay.height sampleDisplay.rotation ∧
      3 < logicalHeight sampleDisplay.width sampleDisplay.height sampleDisplay.rotation) ∧
    (sampleDisplay.draw_pixel 2 3 .White).draw_pixel 2 3 .White
        = sampleDisplay.draw_pixel 2 3 .White :=
  ⟨by decide,
    draw_pixel_idempotent sampleDisplay 2 3 .White (by decide) (by decide)⟩

/-- C7: the buffer length is constant across every operation — creation
gives `ceil(width*height/8)` bytes, `draw_pixel` and `clear` preserve the
length — and `set_rotation` changes no byte of the buffer at all (the
`buffer()` accessor keeps returning the same physical-layout bytes after a
rotation change, which alters only the mapping of future writes). -/
theorem buffer_length_invariant (d : Display) (r : DisplayRotation) (x y : Nat)
    (c bg : Color) (w h : Nat) :
    (d.set_rotation r).buffer = d.buffer ∧
    (d.set_rotation r).width = d.width ∧
    (d.set_rotation r).height = d.height ∧
    (d.draw_pixel x y c).buffer.length = d.buffer.length ∧
    (d.clear c).buffer.length = d.buffer.length ∧
    (Display.new w h bg).buffer.length = bufferLen w h := by
  refine ⟨rfl, rfl, rfl, ?_, ?_, ?_⟩
  · unfold Display.draw_pixel
    split
    · simp
    · rfl
  · simp [Display.clear]
  · simp [Display.new]

/-- C8: in the `Sleeping` or `Uninitialized` state, a frame update fails
fast with `StateError`, leaves the controller unchanged and performs zero
bus I/O operations (its event trace is empty). -/
theorem update_frame_requires_active (ctl : Controller) (buf : List Nat)
    (busy : Nat → Bool) (timeout : Nat)
    (h : ctl.state = .Sleeping ∨ ctl.state = .Uninitialized) :
    ctl.update_and_display_frame buf busy timeout
      = (.error .StateError, ctl, ([] : List BusEvent)) := by
  unfold Controller.update_and_display_frame
  rcases h with h | h <;> rw [h]

theorem update_frame_requires_active_witness :
    ((Controller.mk .Sleeping).state = .Sleeping ∨
      (Controller.mk .Sleeping).state = .Uninitialized) ∧
    (Controller.mk .Sleeping).update_and_display_frame [0] (fun _ => false) 5
      = (.error .StateError, Controller.mk .Sleeping, ([] : List BusEvent)) :=
  ⟨Or.inl rfl,
    update_frame_requires_active (Controller.mk .Sleeping) [0] (fun _ => false) 5
      (Or.inl rfl)⟩

theorem wait_until_idle_timeout (busy : Nat → Bool) :
    ∀ fuel i, (∀ j, j < fuel → busy (i + j) = true) →
      wait_until_idle busy fuel i = .error .TimeoutError := by
  intro fuel
  induction fuel with
  | zero => intro i _; rfl
  | succ n ih =>
    intro i h
    have hb : busy i = true := by simpa using h 0 (Nat.succ_pos n)
    unfold wait_until_idle
    rw [hb]
    simp only [if_true]
    exact ih (i + 1) fun j hj => by
      rw [show i + 1 + j = i + (j + 1) from by omega]
      exact h (j + 1) (by omega)

theorem busyThrough_spec (busy : Nat → Bool) :
    ∀ n, busyThrough busy n = true → ∀ j, j < n → busy j = true := by
  intro n
  induction n with
  | zero => intro _ j hj; omega
  | succ m ih =>
    intro h j hj
    unfold busyThrough at h
    rw [Bool.and_eq_true] at h
    by_cases hjm : j = m
    · subst hjm
      exact h.1
    · exact ih h.2 j (by omega)

/-- C9: when the busy line never clears within the configured timeout bound,
initialization fails with `TimeoutError` — a named error distinct from
`TransportError` — and the controller lifecycle state is left unchanged,
still `Uninitialized`. -/
theorem init_timeout_keeps_uninitialized (ctl : Controller) (busy : Nat → Bool)
    (timeout : Nat) (hbusy : busyThrough busy timeout = true)
    (hstate : ctl.state = .Uninitialized) :
    (ctl.init_hw busy timeout).1 = .error .TimeoutError ∧
    ((ctl.init_hw busy timeout).2.1).state = .Uninitialized ∧
    EpdError.TimeoutError ≠ EpdError.TransportError := by
  have hw : wait_until_idle busy timeout 0 = .error .TimeoutError :=
    wait_until_idle_timeout busy timeout 0 fun j hj => by
      simpa using busyThrough_spec busy timeout hbusy j hj
  unfold Controller.init_hw
  rw [hw]
  exact ⟨rfl, hstate, by decide⟩

theorem init_timeout_keeps_uninitialized_witness :
    (busyThrough (fun _ => true) 3 = true ∧
      (Controller.mk .Uninitialized).state = .Uninitialized) ∧
    ((Controller.mk .Uninitialized).init_hw (fun _ => true) 3).1 = .error .TimeoutError ∧
    (((Controller.mk .Uninitialized).init_hw (fun _ => true) 3).2.1).state
        = .Uninitialized ∧
    EpdError.TimeoutError ≠ EpdError.TransportError :=
  ⟨⟨rfl, rfl⟩,
    init_timeout_keeps_uninitialized (Controller.mk .Uninitialized) (fun _ => true) 3
      rfl rfl⟩

/-- C10: the drawing-interface polarity is inverted relative to the color
names, exactly as the example's comment documents: `Black` packs to the bit
the panel renders as white background, `White` packs to the bit rendered as
black ink, and `clear(Black)` therefore produces an all-white visible
panel. -/
theorem polarity_inverted (d : Display)
    (hwf : d.buffer.length = bufferLen d.width d.height) :
    panelShade Color.Black.get_bit_value = .vWhite ∧
    panelShade Color.White.get_bit_value = .vBlack ∧
    ∀ p, p < d.width * d.height →
      panelShade ((d.clear .Black).pixelBitAt (p / 8) (7 - p % 8)) = .vWhite := by
  refine ⟨rfl, rfl, fun p hp => ?_⟩
  rw [clear_pixel_bit d .Black p hwf hp]
  rfl

theorem polarity_inverted_witness :
    (sampleDisplay.buffer.length = bufferLen sampleDisplay.width sampleDisplay.height ∧
      0 < sampleDisplay.width * sampleDisplay.height) ∧
    panelShade ((sampleDisplay.clear .Black).pixelBitAt (0 / 8) (7 - 0 % 8)) = .vWhite :=
  ⟨⟨sampleDisplay_wf, by decide⟩,
    (polarity_inverted sampleDisplay sampleDisplay_wf).2.2 0 (by decide)⟩
